import Mathlib

/-!
Shallow embedding of the unblob chunk-boundary calculators
(gzip, LZH, NTFS, UBIFS, UBI) and proofs about them.

The input blob is modelled as a `ByteSource`: a random-access,
byte-addressable view with a length (spec §2, ByteSource).  Byte reads
go through `getByte`, which reduces modulo 256 (the underlying data is
`u8`).  Each handler's `calculate_chunk` is translated from
`src/unblob/handlers/...`; helpers that live in modules outside `src/`
(`file_utils`, `iter_utils`, `models`, `_gzip_reader`) are modelled from
the specification and marked as such in their doc comments.
-/

set_option maxRecDepth 10000

namespace Unblob

/-- A random-access byte-addressable view over the input blob:
`size` is the total length, `byte i` the content at offset `i`. -/
structure ByteSource where
  size : Nat
  byte : Nat → Nat

/-- Build a byte source from an explicit list of bytes. -/
def srcOf (l : List Nat) : ByteSource :=
  ⟨l.length, fun i => l.getD i 0⟩

/-- One byte of the source at offset `i`; out-of-range reads give 0.
Bytes are reduced mod 256 since the underlying data is `u8`. -/
def getByte (src : ByteSource) (i : Nat) : Nat :=
  if i < src.size then src.byte i % 256 else 0

/-- Read of `n` bytes (`file.read(n)`) at absolute offset `off`: the available bytes in
`[off, off+n)`, possibly fewer than `n` near the end of the source. -/
def readBytes (src : ByteSource) (off n : Nat) : List Nat :=
  (List.range (min n (src.size - off))).map (fun j => getByte src (off + j))

/-- Little-endian 16-bit field read, as done by the struct parser. -/
def readU16LE (src : ByteSource) (i : Nat) : Nat :=
  getByte src i + getByte src (i + 1) * 256

/-- Little-endian 32-bit field read. -/
def readU32LE (src : ByteSource) (i : Nat) : Nat :=
  getByte src i + getByte src (i + 1) * 256 +
    getByte src (i + 2) * 65536 + getByte src (i + 3) * 16777216

/-- Big-endian 32-bit field read. -/
def readU32BE (src : ByteSource) (i : Nat) : Nat :=
  getByte src i * 16777216 + getByte src (i + 1) * 65536 +
    getByte src (i + 2) * 256 + getByte src (i + 3)

/-- Little-endian 64-bit field read. -/
def readU64LE (src : ByteSource) (i : Nat) : Nat :=
  readU32LE src i + readU32LE src (i + 4) * 4294967296

/-- Structure `ValidChunk` from `unblob.models`: a half-open byte range. -/
structure ValidChunk where
  start_offset : Nat
  end_offset : Nat
deriving DecidableEq, Repr

/-- Result of one calculator invocation (`CalculatorResult` of the spec):
`noChunk` models a `None` return, `chunk` a returned `ValidChunk`,
`formatInvalid` a raised `InvalidInputFormat`, and `truncated` a failed
header read (`TruncatedHeader`, an infrastructure error). -/
inductive CalcResult where
  | noChunk
  | chunk (c : ValidChunk)
  | formatInvalid
  | truncated
deriving DecidableEq, Repr

namespace LZHHandler

/-- Constant `PADDING_LEN` from `handlers/compression/lzh.py`. -/
def PADDING_LEN : Nat := 2

/-- Byte size of `lzh_default_header_t`:
`header_size(1) header_checksum(1) method_id(5) compressed_size(4)
uncompressed_size(4) timestamp(4) fd_attribute(1) level_identifier(1)`. -/
def HEADER_LEN : Nat := 21

/-- The real header size computed by `LZHHandler.calculate_chunk`:
for `level_identifier == 2` the bytes parsed as `header_size` and
`header_checksum` are recombined as `header_size + (header_checksum << 8)`;
otherwise `header_size + PADDING_LEN`. -/
def real_header_size (src : ByteSource) (start : Nat) : Nat :=
  let header_size := getByte src start
  let header_checksum := getByte src (start + 1)
  let level_identifier := getByte src (start + 20)
  if level_identifier = 2 then
    header_size + (header_checksum <<< 8)
  else
    header_size + PADDING_LEN

/-- The end offset computed before the null-terminator adjustment:
`start + header_size + compressed_size` (`compressed_size` is the
little-endian u32 at offset 7 of the header). -/
def computed_end (src : ByteSource) (start : Nat) : Nat :=
  start + real_header_size src start + readU32LE src (start + 7)

/-- Translation of `LZHHandler.calculate_chunk` from `handlers/compression/lzh.py`.
The header is parsed at `start` (21 bytes, little-endian); if fewer
bytes are available the struct parse fails (`truncated`).  Otherwise the
end offset is `start + real_header_size + compressed_size`, extended to
the end of the data when it falls exactly one byte short of it
(`end_pos - end_offset == 1` in the source, an `int` comparison). -/
def calculate_chunk (src : ByteSource) (start : Nat) : CalcResult :=
  if start + HEADER_LEN ≤ src.size then
    let end_offset := computed_end src start
    let end_pos := src.size
    let end_offset :=
      if (end_pos : Int) - (end_offset : Int) = 1 then end_pos else end_offset
    .chunk ⟨start, end_offset⟩
  else
    .truncated

end LZHHandler

namespace NTFSHandler

/-- Byte size of `ntfs_boot_t` (3+8+2+1+7+1+2+2+2+4+4+4+8+8+8+1+3+1+3+8+4+426+2). -/
def HEADER_LEN : Nat := 512

/-- Field `bytes_per_sector`: u16 little-endian at offset 11 of `ntfs_boot_t`
(after `jmp_ins[3]` and `oem_id[8]`). -/
def bytes_per_sector (src : ByteSource) (start : Nat) : Nat :=
  readU16LE src (start + 11)

/-- Field `total_sectors`: u64 little-endian at offset 40 of `ntfs_boot_t`. -/
def total_sectors (src : ByteSource) (start : Nat) : Nat :=
  readU64LE src (start + 40)

/-- Translation of `NTFSHandler.calculate_chunk` from `handlers/filesystem/ntfs.py`:
parse the boot sector, reject (`noChunk`) when
`total_sectors * bytes_per_sector == 0`, otherwise the chunk ends at
`start + len(header) + fsize`. -/
def calculate_chunk (src : ByteSource) (start : Nat) : CalcResult :=
  if start + HEADER_LEN ≤ src.size then
    let fsize := total_sectors src start * bytes_per_sector src start
    if fsize = 0 then
      .noChunk
    else
      .chunk ⟨start, start + HEADER_LEN + fsize⟩
  else
    .truncated

end NTFSHandler

/-- Byte order selected for multi-byte field decoding. -/
inductive Endian where
  | big
  | little
deriving DecidableEq, Repr

/-- Modelled from the spec: `get_endian` lives in `unblob.file_utils`,
which is not under `src/`.  The spec (§4.6) determines the byte order by
testing the 4 bytes at the candidate offset against the big-endian
constant and its byte-reversed little-endian counterpart; a match of the
big-endian interpretation selects big-endian decoding, any other content
(in particular the byte-reversed magic) selects little-endian decoding. -/
def get_endian (src : ByteSource) (offset : Nat) (big_endian_magic : Nat) : Endian :=
  if readU32BE src offset = big_endian_magic then .big else .little

/-- A 32-bit field read in the given byte order. -/
def readU32 (e : Endian) (src : ByteSource) (i : Nat) : Nat :=
  match e with
  | .big => readU32BE src i
  | .little => readU32LE src i

namespace UBIFSHandler

/-- Constant `_BIG_ENDIAN_MAGIC` from `handlers/filesystem/ubi.py`. -/
def BIG_ENDIAN_MAGIC : Nat := 0x06101831

/-- Byte size of `ubifs_sb_node_t` (24-byte `ubifs_ch_t` plus the
superblock fields and 3774 bytes of padding). -/
def HEADER_LEN : Nat := 4096

/-- Field `leb_size`: u32 at offset 36 of `ubifs_sb_node_t`
(24-byte common header, 2 padding, `key_hash`, `key_fmt`, `flags`,
`min_io_size` precede it). -/
def leb_size (e : Endian) (src : ByteSource) (start : Nat) : Nat :=
  readU32 e src (start + 36)

/-- Field `leb_cnt`: u32 at offset 40 of `ubifs_sb_node_t`. -/
def leb_cnt (e : Endian) (src : ByteSource) (start : Nat) : Nat :=
  readU32 e src (start + 40)

/-- Value `ubifs_length = sb_header.leb_size * sb_header.leb_cnt` as computed
by `UBIFSHandler.calculate_chunk`, with endianness chosen by
`get_endian`. -/
def ubifs_length (src : ByteSource) (start : Nat) : Nat :=
  let endian := get_endian src start BIG_ENDIAN_MAGIC
  leb_size endian src start * leb_cnt endian src start

/-- Translation of `UBIFSHandler.calculate_chunk` from `handlers/filesystem/ubi.py`:
choose the byte order from the magic, parse the superblock node and
return a chunk of length `leb_size * leb_cnt` unconditionally.  The only
failure mode is a truncated header read (struct parse failure, modelled
from spec §4.1). -/
def calculate_chunk (src : ByteSource) (start : Nat) : CalcResult :=
  if start + HEADER_LEN ≤ src.size then
    .chunk ⟨start, start + ubifs_length src start⟩
  else
    .truncated

end UBIFSHandler

/-- One fuel-bounded unfolding of the padding-skip loop of
`read_until_past`. -/
def readUntilPastGo (src : ByteSource) (b : Nat) (pos : Nat) : Nat → Nat
  | 0 => pos
  | fuel + 1 =>
      if pos < src.size then
        if getByte src pos = b then readUntilPastGo src b (pos + 1) fuel else pos
      else pos

/-- Modelled from the spec: `read_until_past` lives in
`unblob.file_utils`, which is not under `src/`.  Spec §4.3: starting at
the current position, skip forward over any run of bytes equal to the
padding byte; the returned position is the first position whose byte is
not the padding byte (or the end of the source).  Each iteration needs
`pos < src.size` and increases `pos`, so at most `src.size` iterations
happen and fuel `src.size + 1` realizes the unbounded loop. -/
def read_until_past (src : ByteSource) (b : Nat) (pos : Nat) : Nat :=
  readUntilPastGo src b pos (src.size + 1)

namespace GZIPHandler

/-- Constant `GZIP2_FOOTER_LEN = GZIP2_CRC_LEN + GZIP2_SIZE_LEN` from
`handlers/compression/gzip.py`. -/
def GZIP2_FOOTER_LEN : Nat := 8

/-- Modelled from the spec: the outcome of running
`SingleMemberGzipReader` (module `_gzip_reader`, not under `src/`) at
the candidate start offset.
* `headerFail`: `read_header()` returned false (magic mismatch);
* `decodeError`: `read_until_eof()` raised (`BadGzipFile` / `zlib.error`,
  malformed compressed payload);
* `ok consumed unused`: the member's header plus deflate payload spans
  `consumed` bytes from the start offset; the reader over-read `unused`
  further bytes that are buffered but not part of the payload
  (`fp.unused_data`), leaving the file position at
  `start + consumed + unused`. -/
inductive DecodeOutcome where
  | headerFail
  | decodeError
  | ok (consumed unused : Nat)
deriving DecidableEq, Repr

/-- The file position after `file.seek(GZIP2_FOOTER_LEN -
len(fp.unused_data), io.SEEK_CUR)`: a relative seek by the possibly
negative amount `8 - unused` from `start + consumed + unused`. -/
def pos_after_footer (start consumed unused : Nat) : Nat :=
  (((start + consumed + unused : Nat) : Int) +
    ((GZIP2_FOOTER_LEN : Int) - (unused : Int))).toNat

/-- Translation of `GZIPHandler.calculate_chunk` from `handlers/compression/gzip.py`,
with the decoder's behaviour supplied as a `DecodeOutcome`: a header
parse failure returns `None`; a malformed payload raises
`InvalidInputFormat`; on success the position is advanced past the
8-byte trailer (minus the bytes already buffered) and then past any run
of zero padding, which gives the chunk end. -/
def calculate_chunk (src : ByteSource) (start : Nat) (dec : DecodeOutcome) :
    CalcResult :=
  match dec with
  | .headerFail => .noChunk
  | .decodeError => .formatInvalid
  | .ok consumed unused =>
      let end_offset := read_until_past src 0 (pos_after_footer start consumed unused)
      .chunk ⟨start, end_offset⟩

end GZIPHandler

namespace UBIHandler

/-- Constant `_UBI_EC_HEADER = b"UBI#"` from `handlers/filesystem/ubi.py`. -/
def UBI_EC_HEADER : List Nat := [0x55, 0x42, 0x49, 0x23]

/-- The marker-sized window test done by `_walk_ubi`:
`file.read(len(_UBI_EC_HEADER))` at `off` compared with the marker
(a short read near the end of the source never matches). -/
def windowMatches (src : ByteSource) (off : Nat) : Bool :=
  readBytes src off UBI_EC_HEADER.length == UBI_EC_HEADER

/-- Modelled from the spec: `iterate_patterns` lives in
`unblob.file_utils`, which is not under `src/`.  Spec §4.7: every offset
in the source where the fixed 4-byte erase-block marker occurs, in
increasing order. -/
def all_ubi_eraseblock_offsets (src : ByteSource) : List Nat :=
  (List.range src.size).filter (fun i => windowMatches src i)

/-- Modelled from the spec: `get_intervals` lives in
`unblob.iter_utils`, which is not under `src/`.  Spec §4.7: the
distances between each occurrence and the next (sequential intervals,
not all pairs). -/
def get_intervals (l : List Nat) : List Nat :=
  List.zipWith (fun a b => b - a) l l.tail

/-- Modelled from the spec: `statistics.mode` of the interval multiset —
the most common element (the first such element on ties). -/
def mode (l : List Nat) : Nat :=
  l.foldl (fun best x => if l.count best < l.count x then x else best) (l.headD 0)

/-- One fuel-bounded unfolding of the `while True` loop of `_walk_ubi`:
read a marker-sized window at `offset`; if it matches the erase-block
marker advance by `peb_size`, otherwise stop and return `offset`. -/
def walkGo (src : ByteSource) (peb_size : Nat) (offset : Nat) : Nat → Nat
  | 0 => offset
  | fuel + 1 =>
      if windowMatches src offset then walkGo src peb_size (offset + peb_size) fuel
      else offset

/-- Translation of `UBIHandler._walk_ubi` from `handlers/filesystem/ubi.py`: walk from
`offset` at `peb_size`-sized strides while the window matches.  For any
positive `peb_size` the loop makes at most `src.size` matching steps
(a match needs `offset + 4 ≤ src.size` and each step strictly increases
`offset`), so fuel `src.size + 1` realizes the unbounded source loop. -/
def _walk_ubi (src : ByteSource) (peb_size : Nat) (offset : Nat) : Nat :=
  walkGo src peb_size offset (src.size + 1)

/-- Translation of `UBIHandler._guess_peb_size` composed with the `PEBSizeNotFound`
handling of `UBIHandler.calculate_chunk`: `none` when no intervals can
be formed, otherwise the mode of the intervals. -/
def _guess_peb_size (src : ByteSource) : Option Nat :=
  let offset_intervals := get_intervals (all_ubi_eraseblock_offsets src)
  if offset_intervals.isEmpty then none
  else some (mode offset_intervals)

/-- Translation of `UBIHandler.calculate_chunk` from `handlers/filesystem/ubi.py`:
guess the erase-block stride (returning `None` when `PEBSizeNotFound`
is raised), then walk from `start_offset` to find the chunk end. -/
def calculate_chunk (src : ByteSource) (start : Nat) : CalcResult :=
  match _guess_peb_size src with
  | none => .noChunk
  | some peb_size => .chunk ⟨start, _walk_ubi src peb_size start⟩

end UBIHandler

/-! ### Helper lemmas -/

theorem getByte_lt (src : ByteSource) (i : Nat) : getByte src i < 256 := by
  unfold getByte
  split
  · exact Nat.mod_lt _ (by norm_num)
  · norm_num

/-- Recombining a low byte with a value shifted left by 8 via bitwise or
is the same as adding them. -/
theorem lor_shift8_eq_add (a b : Nat) (ha : a < 256) :
    a ||| (b <<< 8) = a + (b <<< 8) := by
  have h8 : b <<< 8 = 2 ^ 8 * b := by
    rw [Nat.shiftLeft_eq]; ring
  rw [h8, Nat.lor_comm, ← Nat.mul_add_lt_is_or (by norm_num [ha] : a < 2 ^ 8) b]
  omega

theorem readUntilPastGo_ge (src : ByteSource) (b : Nat) :
    ∀ (fuel pos : Nat), pos ≤ readUntilPastGo src b pos fuel := by
  intro fuel
  induction fuel with
  | zero => intro pos; simp [readUntilPastGo]
  | succ n ih =>
      intro pos
      simp only [readUntilPastGo]
      split
      · split
        · exact le_trans (by omega) (ih (pos + 1))
        · exact le_refl pos
      · exact le_refl pos

theorem read_until_past_ge (src : ByteSource) (b pos : Nat) :
    pos ≤ read_until_past src b pos :=
  readUntilPastGo_ge src b (src.size + 1) pos

theorem readUntilPastGo_spec (src : ByteSource) (b : Nat) :
    ∀ (k pos fuel : Nat), k < fuel →
      (∀ j, j < k → getByte src (pos + j) = b) →
      pos + k < src.size →
      getByte src (pos + k) ≠ b →
      readUntilPastGo src b pos fuel = pos + k := by
  intro k
  induction k with
  | zero =>
      intro pos fuel hfuel _ hin hstop
      obtain ⟨f, rfl⟩ : ∃ f, fuel = f + 1 := ⟨fuel - 1, by omega⟩
      simp only [Nat.add_zero] at hin hstop
      simp [readUntilPastGo, hin, hstop]
  | succ k ih =>
      intro pos fuel hfuel hrun hin hstop
      obtain ⟨f, rfl⟩ : ∃ f, fuel = f + 1 := ⟨fuel - 1, by omega⟩
      have hpos : pos < src.size := by omega
      have hb : getByte src pos = b := by
        have := hrun 0 (by omega)
        simpa using this
      have hrec := ih (pos + 1) f (by omega)
        (fun j hj => by
          have := hrun (j + 1) (by omega)
          simpa [Nat.add_assoc, Nat.add_comm 1 j] using this)
        (by omega)
        (by
          have : pos + 1 + k = pos + (k + 1) := by omega
          rw [this]; exact hstop)
      simp only [readUntilPastGo, hpos, if_pos, hb, if_true]
      rw [hrec]
      omega

theorem read_until_past_spec (src : ByteSource) (b pos k : Nat)
    (hrun : ∀ j, j < k → getByte src (pos + j) = b)
    (hin : pos + k < src.size)
    (hstop : getByte src (pos + k) ≠ b) :
    read_until_past src b pos = pos + k :=
  readUntilPastGo_spec src b k pos (src.size + 1) (by omega) hrun hin hstop

theorem pos_after_footer_eq (start consumed unused : Nat) :
    GZIPHandler.pos_after_footer start consumed unused = start + consumed + 8 := by
  unfold GZIPHandler.pos_after_footer GZIPHandler.GZIP2_FOOTER_LEN
  omega

namespace UBIHandler

theorem windowMatches_size (src : ByteSource) (off : Nat)
    (h : windowMatches src off = true) : off + 4 ≤ src.size := by
  have hbytes : readBytes src off UBI_EC_HEADER.length = UBI_EC_HEADER := by
    unfold windowMatches at h
    exact beq_iff_eq.mp h
  have hlen : (readBytes src off UBI_EC_HEADER.length).length = 4 := by
    rw [hbytes]; rfl
  have : min UBI_EC_HEADER.length (src.size - off) = 4 := by
    simpa [readBytes] using hlen
  simp only [UBI_EC_HEADER] at this
  omega

theorem walkGo_ge (src : ByteSource) (peb_size : Nat) :
    ∀ (fuel offset : Nat), offset ≤ walkGo src peb_size offset fuel := by
  intro fuel
  induction fuel with
  | zero => intro offset; simp [walkGo]
  | succ n ih =>
      intro offset
      simp only [walkGo]
      split
      · exact le_trans (by omega) (ih (offset + peb_size))
      · exact le_refl offset

theorem walkGo_spec (src : ByteSource) (S : Nat) :
    ∀ (N start fuel : Nat), N < fuel →
      (∀ i, i < N → windowMatches src (start + i * S) = true) →
      windowMatches src (start + N * S) = false →
      walkGo src S start fuel = start + N * S := by
  intro N
  induction N with
  | zero =>
      intro start fuel hfuel _ hstop
      obtain ⟨f, rfl⟩ : ∃ f, fuel = f + 1 := ⟨fuel - 1, by omega⟩
      simp only [Nat.zero_mul, Nat.add_zero] at hstop
      simp [walkGo, hstop]
  | succ N ih =>
      intro start fuel hfuel hrun hstop
      obtain ⟨f, rfl⟩ : ∃ f, fuel = f + 1 := ⟨fuel - 1, by omega⟩
      have h0 : windowMatches src start = true := by
        have := hrun 0 (by omega)
        simpa using this
      have hrec := ih (start + S) f (by omega)
        (fun i hi => by
          have := hrun (i + 1) (by omega)
          have harith : start + (i + 1) * S = start + S + i * S := by ring
          rwa [harith] at this)
        (by
          have harith : start + (N + 1) * S = start + S + N * S := by ring
          rwa [harith] at hstop)
      simp only [walkGo, h0, if_true]
      rw [hrec]
      ring

theorem walk_spec (src : ByteSource) (S start N : Nat) (hS : 0 < S)
    (hrun : ∀ i, i < N → windowMatches src (start + i * S) = true)
    (hstop : windowMatches src (start + N * S) = false) :
    _walk_ubi src S start = start + N * S := by
  have hN : N ≤ src.size := by
    rcases N with _ | m
    · omega
    · have hm := hrun m (by omega)
      have hsize := windowMatches_size src (start + m * S) hm
      have : m ≤ m * S := Nat.le_mul_of_pos_right m hS
      omega
  exact walkGo_spec src S N start (src.size + 1) (by omega) hrun hstop

theorem get_intervals_eq_nil (l : List Nat) (h : l.length < 2) :
    get_intervals l = [] := by
  match l with
  | [] => rfl
  | [a] => rfl
  | a :: b :: t => simp at h; omega

end UBIHandler

/-! ### Claims -/

/-- C4: for every LZH header whose `level_identifier` equals 2, the real
header size used by the calculator equals the byte parsed as
`header_size` combined with the byte parsed as `header_checksum` as low
and high bytes respectively (`header_size | (checksum << 8)`). -/
theorem c4_lzh_level2_header_size (src : ByteSource) (start : Nat)
    (hlevel : getByte src (start + 20) = 2) :
    LZHHandler.real_header_size src start =
      getByte src start ||| (getByte src (start + 1)) <<< 8 := by
  unfold LZHHandler.real_header_size
  rw [hlevel]
  simp only [if_pos rfl]
  exact (lor_shift8_eq_add _ _ (getByte_lt src start)).symm

/-- C4 witness: overlay bytes `0x05, 0x01` under level 2 yield real
header size `0x0105`, not `0x05`. -/
theorem c4_lzh_level2_header_size_witness :
    LZHHandler.real_header_size (srcOf ([5, 1] ++ List.replicate 18 0 ++ [2])) 0 =
      0x0105 :=
  (c4_lzh_level2_header_size (srcOf ([5, 1] ++ List.replicate 18 0 ++ [2])) 0
    (by decide)).trans (by decide)

/-- C5: if the computed end offset is exactly one byte short of the end
of the available data, the returned chunk's end offset is extended to
the data end; for any other gap the computed end offset is returned
unchanged. -/
theorem c5_lzh_null_terminator (src : ByteSource) (start : Nat)
    (hparse : start + LZHHandler.HEADER_LEN ≤ src.size) :
    (src.size = LZHHandler.computed_end src start + 1 →
      LZHHandler.calculate_chunk src start = .chunk ⟨start, src.size⟩) ∧
    (src.size ≠ LZHHandler.computed_end src start + 1 →
      LZHHandler.calculate_chunk src start =
        .chunk ⟨start, LZHHandler.computed_end src start⟩) := by
  constructor
  · intro h
    unfold LZHHandler.calculate_chunk
    rw [if_pos hparse]
    have hc : ((src.size : Int) - (LZHHandler.computed_end src start : Int)) = 1 := by
      omega
    simp [hc]
  · intro h
    unfold LZHHandler.calculate_chunk
    rw [if_pos hparse]
    have hc : ¬ ((src.size : Int) - (LZHHandler.computed_end src start : Int)) = 1 := by
      omega
    simp [hc]

/-- C5 witness: a 22-byte source whose computed end offset is 21 gets
extended to 22; a 21-byte source whose computed end offset is 2 is
returned unchanged. -/
theorem c5_lzh_null_terminator_witness :
    LZHHandler.calculate_chunk (srcOf ([0, 0, 0, 0, 0, 0, 0, 19] ++ List.replicate 14 0)) 0 =
      .chunk ⟨0, 22⟩ ∧
    LZHHandler.calculate_chunk (srcOf (List.replicate 21 0)) 0 = .chunk ⟨0, 2⟩ :=
  ⟨(c5_lzh_null_terminator (srcOf ([0, 0, 0, 0, 0, 0, 0, 19] ++ List.replicate 14 0)) 0
      (by decide)).1 (by decide),
   (c5_lzh_null_terminator (srcOf (List.replicate 21 0)) 0 (by decide)).2 (by decide)⟩

/-- C6: for every LZH header whose `level_identifier` is 0 or 1, the
real header size equals the parsed `header_size` field plus 2, and the
computed end offset equals `start + real_header_size + compressed_size`
(no payload bytes are read). -/
theorem c6_lzh_default_levels (src : ByteSource) (start : Nat)
    (hlevel : getByte src (start + 20) = 0 ∨ getByte src (start + 20) = 1) :
    LZHHandler.real_header_size src start = getByte src start + 2 ∧
    LZHHandler.computed_end src start =
      start + (getByte src start + 2) + readU32LE src (start + 7) := by
  have hne : ¬ getByte src (start + 20) = 2 := by
    rcases hlevel with h | h <;> omega
  have h1 : LZHHandler.real_header_size src start = getByte src start + 2 := by
    unfold LZHHandler.real_header_size
    rw [if_neg hne]
    rfl
  exact ⟨h1, by unfold LZHHandler.computed_end; rw [h1]⟩

/-- C6 witness: an all-zero 21-byte header (level 0) has real header
size 2 and computed end offset 2. -/
theorem c6_lzh_default_levels_witness :
    LZHHandler.real_header_size (srcOf (List.replicate 21 0)) 0 = 2 ∧
    LZHHandler.computed_end (srcOf (List.replicate 21 0)) 0 = 2 := by
  have h := c6_lzh_default_levels (srcOf (List.replicate 21 0)) 0 (Or.inl (by decide))
  exact ⟨h.1.trans (by decide), h.2.trans (by decide)⟩

/-- C7: for every NTFS candidate whose boot sector parses, the
calculator returns `noChunk` exactly when
`total_sectors * bytes_per_sector` equals 0; otherwise the chunk ends at
`start + header_length + total_sectors * bytes_per_sector`. -/
theorem c7_ntfs_zero_volume (src : ByteSource) (start : Nat)
    (hparse : start + NTFSHandler.HEADER_LEN ≤ src.size) :
    (NTFSHandler.calculate_chunk src start = .noChunk ↔
      NTFSHandler.total_sectors src start * NTFSHandler.bytes_per_sector src start = 0) ∧
    (NTFSHandler.total_sectors src start * NTFSHandler.bytes_per_sector src start ≠ 0 →
      NTFSHandler.calculate_chunk src start =
        .chunk ⟨start, start + NTFSHandler.HEADER_LEN +
          NTFSHandler.total_sectors src start * NTFSHandler.bytes_per_sector src start⟩) := by
  unfold NTFSHandler.calculate_chunk
  rw [if_pos hparse]
  by_cases h : NTFSHandler.total_sectors src start * NTFSHandler.bytes_per_sector src start = 0
  · rw [if_pos h]
    exact ⟨by simp [h], fun hne => absurd h hne⟩
  · rw [if_neg h]
    exact ⟨by simp [h], fun _ => rfl⟩

/-- C7 witness: a 512-byte all-zero boot sector (`total_sectors = 0`)
yields `noChunk`; a boot sector with one sector of one byte yields a
chunk ending at `start + 512 + 1`. -/
theorem c7_ntfs_zero_volume_witness :
    NTFSHandler.calculate_chunk ⟨512, fun _ => 0⟩ 0 = .noChunk ∧
    NTFSHandler.calculate_chunk ⟨512, fun i => if i = 11 then 1 else if i = 40 then 1 else 0⟩ 0 =
      .chunk ⟨0, 513⟩ :=
  ⟨(c7_ntfs_zero_volume ⟨512, fun _ => 0⟩ 0 (by decide)).1.mpr (by decide),
   ((c7_ntfs_zero_volume ⟨512, fun i => if i = 11 then 1 else if i = 40 then 1 else 0⟩ 0
      (by decide)).2 (by decide)).trans (by decide)⟩

/-- C3: the gzip calculator distinguishes the two failure kinds: header
parse failure gives `noChunk` without raising; a malformed payload gives
`formatInvalid` — never `noChunk` and never a chunk. -/
theorem c3_gzip_failure_taxonomy (src : ByteSource) (start : Nat) :
    GZIPHandler.calculate_chunk src start .headerFail = .noChunk ∧
    GZIPHandler.calculate_chunk src start .decodeError = .formatInvalid ∧
    GZIPHandler.calculate_chunk src start .decodeError ≠ .noChunk ∧
    ∀ c : ValidChunk, GZIPHandler.calculate_chunk src start .decodeError ≠ .chunk c := by
  refine ⟨rfl, rfl, by simp [GZIPHandler.calculate_chunk], ?_⟩
  intro c
  simp [GZIPHandler.calculate_chunk]

/-- C2: after decoding one member the position is advanced by the 8
trailer bytes minus the buffered unused bytes, landing exactly past the
member; for a single-member stream of total length `consumed + 8` at
offset `O` followed by `k` zero bytes and then a non-zero byte, the
chunk is `[O, O + (consumed + 8) + k)`. -/
theorem c2_gzip_member_end (src : ByteSource) (O consumed unused k : Nat)
    (hrun : ∀ j, j < k → getByte src (O + consumed + 8 + j) = 0)
    (hin : O + consumed + 8 + k < src.size)
    (hstop : getByte src (O + consumed + 8 + k) ≠ 0) :
    GZIPHandler.pos_after_footer O consumed unused = O + consumed + 8 ∧
    GZIPHandler.calculate_chunk src O (.ok consumed unused) =
      .chunk ⟨O, O + consumed + 8 + k⟩ := by
  refine ⟨pos_after_footer_eq O consumed unused, ?_⟩
  show CalcResult.chunk
      ⟨O, read_until_past src 0 (GZIPHandler.pos_after_footer O consumed unused)⟩ = _
  rw [pos_after_footer_eq O consumed unused]
  rw [read_until_past_spec src 0 (O + consumed + 8) k hrun hin hstop]

/-- C2 witness: a member spanning bytes `[0, 12)` (`consumed = 4`,
trailer 8 bytes) followed by three zero bytes and a non-zero byte yields
the chunk `[0, 15)`. -/
theorem c2_gzip_member_end_witness :
    GZIPHandler.calculate_chunk
        (srcOf [31, 139, 8, 0, 9, 9, 9, 9, 9, 9, 9, 9, 0, 0, 0, 7]) 0 (.ok 4 2) =
      .chunk ⟨0, 15⟩ :=
  (c2_gzip_member_end (srcOf [31, 139, 8, 0, 9, 9, 9, 9, 9, 9, 9, 9, 0, 0, 0, 7])
    0 4 2 3 (by decide) (by decide) (by decide)).2

/-- C8: with fewer than two erase-block marker occurrences the UBI
calculator returns `noChunk`; otherwise, with the inferred stride `S`
(the mode of the successive marker intervals), walking from the start
offset over `N` matching marker windows spaced `S` apart and stopping at
the first non-matching window gives the chunk `[start, start + N*S)`. -/
theorem c8_ubi_stride_walk (src : ByteSource) (start N S : Nat) :
    ((UBIHandler.all_ubi_eraseblock_offsets src).length < 2 →
      UBIHandler.calculate_chunk src start = .noChunk) ∧
    (UBIHandler._guess_peb_size src = some S → 0 < S →
      (∀ i, i < N → UBIHandler.windowMatches src (start + i * S) = true) →
      UBIHandler.windowMatches src (start + N * S) = false →
      UBIHandler.calculate_chunk src start = .chunk ⟨start, start + N * S⟩) := by
  constructor
  · intro hlen
    have hnil : UBIHandler.get_intervals (UBIHandler.all_ubi_eraseblock_offsets src) = [] :=
      UBIHandler.get_intervals_eq_nil _ hlen
    unfold UBIHandler.calculate_chunk UBIHandler._guess_peb_size
    rw [hnil]
    rfl
  · intro hguess hS hrun hstop
    unfold UBIHandler.calculate_chunk
    rw [hguess]
    show CalcResult.chunk ⟨start, UBIHandler._walk_ubi src S start⟩ = _
    rw [UBIHandler.walk_spec src S start N hS hrun hstop]

/-- C8 witness: markers every 8 bytes at 3 consecutive block starts
followed by non-marker bytes give stride 8 and the chunk `[0, 24)`; a
source with a single marker occurrence gives `noChunk`. -/
theorem c8_ubi_stride_walk_witness :
    UBIHandler.calculate_chunk
        (srcOf [0x55, 0x42, 0x49, 0x23, 0, 0, 0, 0,
                0x55, 0x42, 0x49, 0x23, 0, 0, 0, 0,
                0x55, 0x42, 0x49, 0x23, 0, 0, 0, 0,
                1, 1, 1, 1, 1, 1, 1, 1]) 0 = .chunk ⟨0, 24⟩ ∧
    UBIHandler.calculate_chunk (srcOf [0x55, 0x42, 0x49, 0x23, 0]) 0 = .noChunk :=
  ⟨by
    have h := (c8_ubi_stride_walk
      (srcOf [0x55, 0x42, 0x49, 0x23, 0, 0, 0, 0,
              0x55, 0x42, 0x49, 0x23, 0, 0, 0, 0,
              0x55, 0x42, 0x49, 0x23, 0, 0, 0, 0,
              1, 1, 1, 1, 1, 1, 1, 1]) 0 3 8).2
      (by decide) (by decide) (by decide) (by decide)
    simpa using h,
   (c8_ubi_stride_walk (srcOf [0x55, 0x42, 0x49, 0x23, 0]) 0 0 0).1 (by decide)⟩

/-- C9: the byte order for UBIFS superblock fields is chosen by testing
the 4 magic bytes at the candidate offset against the big-endian
constant and its byte-reversed counterpart, and the chunk length equals
`leb_size * leb_cnt` identically for both encodings of the same logical
field values. -/
theorem c9_ubifs_endianness (sbe sle : ByteSource) (start s c : Nat)
    (hbe : start + UBIFSHandler.HEADER_LEN ≤ sbe.size)
    (hle : start + UBIFSHandler.HEADER_LEN ≤ sle.size)
    (hmagbe : readU32BE sbe start = UBIFSHandler.BIG_ENDIAN_MAGIC)
    (hmagle0 : getByte sle start = 0x31) (hmagle1 : getByte sle (start + 1) = 0x18)
    (hmagle2 : getByte sle (start + 2) = 0x10) (hmagle3 : getByte sle (start + 3) = 0x06)
    (hsbe : readU32BE sbe (start + 36) = s) (hcbe : readU32BE sbe (start + 40) = c)
    (hsle : readU32LE sle (start + 36) = s) (hcle : readU32LE sle (start + 40) = c) :
    get_endian sbe start UBIFSHandler.BIG_ENDIAN_MAGIC = .big ∧
    get_endian sle start UBIFSHandler.BIG_ENDIAN_MAGIC = .little ∧
    UBIFSHandler.calculate_chunk sbe start = .chunk ⟨start, start + s * c⟩ ∧
    UBIFSHandler.calculate_chunk sle start = .chunk ⟨start, start + s * c⟩ := by
  have hebig : get_endian sbe start UBIFSHandler.BIG_ENDIAN_MAGIC = .big := by
    unfold get_endian
    rw [if_pos hmagbe]
  have helittle : get_endian sle start UBIFSHandler.BIG_ENDIAN_MAGIC = .little := by
    unfold get_endian
    rw [if_neg]
    unfold readU32BE
    rw [hmagle0, hmagle1, hmagle2, hmagle3]
    unfold UBIFSHandler.BIG_ENDIAN_MAGIC
    norm_num
  refine ⟨hebig, helittle, ?_, ?_⟩
  · unfold UBIFSHandler.calculate_chunk
    rw [if_pos hbe]
    unfold UBIFSHandler.ubifs_length UBIFSHandler.leb_size UBIFSHandler.leb_cnt
    rw [hebig]
    unfold readU32
    rw [hsbe, hcbe]
  · unfold UBIFSHandler.calculate_chunk
    rw [if_pos hle]
    unfold UBIFSHandler.ubifs_length UBIFSHandler.leb_size UBIFSHandler.leb_cnt
    rw [helittle]
    unfold readU32
    rw [hsle, hcle]

/-- C9 witness: a big-endian and a little-endian encoding of
`leb_size = 2`, `leb_cnt = 3` both yield the chunk `[0, 6)`. -/
theorem c9_ubifs_endianness_witness :
    UBIFSHandler.calculate_chunk
        ⟨4096, fun i => if i = 0 then 0x06 else if i = 1 then 0x10 else
          if i = 2 then 0x18 else if i = 3 then 0x31 else
          if i = 39 then 2 else if i = 43 then 3 else 0⟩ 0 = .chunk ⟨0, 6⟩ ∧
    UBIFSHandler.calculate_chunk
        ⟨4096, fun i => if i = 0 then 0x31 else if i = 1 then 0x18 else
          if i = 2 then 0x10 else if i = 3 then 0x06 else
          if i = 36 then 2 else if i = 40 then 3 else 0⟩ 0 = .chunk ⟨0, 6⟩ := by
  have h := c9_ubifs_endianness
    ⟨4096, fun i => if i = 0 then 0x06 else if i = 1 then 0x10 else
      if i = 2 then 0x18 else if i = 3 then 0x31 else
      if i = 39 then 2 else if i = 43 then 3 else 0⟩
    ⟨4096, fun i => if i = 0 then 0x31 else if i = 1 then 0x18 else
      if i = 2 then 0x10 else if i = 3 then 0x06 else
      if i = 36 then 2 else if i = 40 then 3 else 0⟩
    0 2 3 (by decide) (by decide) (by decide) (by decide) (by decide)
    (by decide) (by decide) (by decide) (by decide) (by decide) (by decide)
  exact ⟨h.2.2.1, h.2.2.2⟩

/-- C10: the UBIFS calculator has no rejection path — whenever the
superblock header can be read it returns a chunk of length
`leb_size * leb_cnt`; in particular a zero geometry yields a chunk with
`end_offset = start_offset`. -/
theorem c10_ubifs_no_rejection (src : ByteSource) (start : Nat)
    (hparse : start + UBIFSHandler.HEADER_LEN ≤ src.size) :
    UBIFSHandler.calculate_chunk src start =
      .chunk ⟨start, start + UBIFSHandler.ubifs_length src start⟩ ∧
    (UBIFSHandler.ubifs_length src start = 0 →
      UBIFSHandler.calculate_chunk src start = .chunk ⟨start, start⟩) := by
  have h : UBIFSHandler.calculate_chunk src start =
      .chunk ⟨start, start + UBIFSHandler.ubifs_length src start⟩ := by
    unfold UBIFSHandler.calculate_chunk
    rw [if_pos hparse]
  refine ⟨h, fun hz => ?_⟩
  rw [h, hz, Nat.add_zero]

/-- C10 witness: a superblock with big-endian magic and zero
`leb_size`/`leb_cnt` yields the zero-length chunk `[0, 0)`. -/
theorem c10_ubifs_no_rejection_witness :
    UBIFSHandler.calculate_chunk
        ⟨4096, fun i => if i = 0 then 0x06 else if i = 1 then 0x10 else
          if i = 2 then 0x18 else if i = 3 then 0x31 else 0⟩ 0 = .chunk ⟨0, 0⟩ :=
  (c10_ubifs_no_rejection
    ⟨4096, fun i => if i = 0 then 0x06 else if i = 1 then 0x10 else
      if i = 2 then 0x18 else if i = 3 then 0x31 else 0⟩ 0 (by decide)).2 (by decide)

/-- C1 counterexample: the claimed `ValidChunk` invariant
(`end_offset > start_offset` and `end_offset ≤ source length`) fails on
the code.  A 4096-byte UBIFS superblock with zero `leb_size`/`leb_cnt`
is returned as the chunk `[0, 0)` (violating `end_offset >
start_offset`), and a 4096-byte superblock declaring `leb_size = 4096`,
`leb_cnt = 2` is returned as the chunk `[0, 8192)` whose end exceeds the
source length (violating `end_offset ≤ source length`). -/
theorem c1_chunk_invariant_counterexample :
    (UBIFSHandler.calculate_chunk
        ⟨4096, fun i => if i = 0 then 0x06 else if i = 1 then 0x10 else
          if i = 2 then 0x18 else if i = 3 then 0x31 else 0⟩ 0 = .chunk ⟨0, 0⟩ ∧
      ¬ (0 : Nat) < (0 : Nat)) ∧
    (UBIFSHandler.calculate_chunk
        ⟨4096, fun i => if i = 0 then 0x06 else if i = 1 then 0x10 else
          if i = 2 then 0x18 else if i = 3 then 0x31 else
          if i = 38 then 0x10 else if i = 43 then 2 else 0⟩ 0 = .chunk ⟨0, 8192⟩ ∧
      ¬ (8192 : Nat) ≤ (4096 : Nat)) := by
  exact ⟨⟨by decide, by decide⟩, ⟨by decide, by decide⟩⟩

/-- C1 (amended): for every calculator and every invocation that
returns a chunk, the returned chunk satisfies
`end_offset ≥ start_offset`; neither strictness of that inequality nor
the upper bound `end_offset ≤ source length` is enforced by the code.
The gzip conjunct quantifies over the decoder outcome. -/
theorem c1_chunk_start_le_end (src : ByteSource) (start : Nat)
    (dec : GZIPHandler.DecodeOutcome) (c : ValidChunk) :
    (GZIPHandler.calculate_chunk src start dec = .chunk c →
      c.start_offset ≤ c.end_offset) ∧
    (LZHHandler.calculate_chunk src start = .chunk c →
      c.start_offset ≤ c.end_offset) ∧
    (NTFSHandler.calculate_chunk src start = .chunk c →
      c.start_offset ≤ c.end_offset) ∧
    (UBIFSHandler.calculate_chunk src start = .chunk c →
      c.start_offset ≤ c.end_offset) ∧
    (UBIHandler.calculate_chunk src start = .chunk c →
      c.start_offset ≤ c.end_offset) := by
  refine ⟨?_, ?_, ?_, ?_, ?_⟩
  · intro h
    match dec with
    | .headerFail => exact absurd h (by simp [GZIPHandler.calculate_chunk])
    | .decodeError => exact absurd h (by simp [GZIPHandler.calculate_chunk])
    | .ok consumed unused =>
        have hc : c = ⟨start,
            read_until_past src 0 (GZIPHandler.pos_after_footer start consumed unused)⟩ := by
          have := h.symm
          simpa [GZIPHandler.calculate_chunk] using this
        rw [hc]
        calc start ≤ GZIPHandler.pos_after_footer start consumed unused := by
              rw [pos_after_footer_eq]; omega
          _ ≤ _ := read_until_past_ge src 0 _
  · intro h
    unfold LZHHandler.calculate_chunk at h
    by_cases hsz : start + LZHHandler.HEADER_LEN ≤ src.size
    · rw [if_pos hsz] at h
      by_cases hcond :
          ((src.size : Int) - (LZHHandler.computed_end src start : Int)) = 1
      · have hc : c = ⟨start, src.size⟩ := by
          have := h.symm
          simpa [hcond] using this
        rw [hc]
        have : start ≤ LZHHandler.computed_end src start := by
          unfold LZHHandler.computed_end
          omega
        simp only
        omega
      · have hc : c = ⟨start, LZHHandler.computed_end src start⟩ := by
          have := h.symm
          simpa [hcond] using this
        rw [hc]
        unfold LZHHandler.computed_end
        simp only
        omega
    · rw [if_neg hsz] at h
      exact absurd h (by simp)
  · intro h
    unfold NTFSHandler.calculate_chunk at h
    by_cases hsz : start + NTFSHandler.HEADER_LEN ≤ src.size
    · rw [if_pos hsz] at h
      by_cases hz :
          NTFSHandler.total_sectors src start * NTFSHandler.bytes_per_sector src start = 0
      · simp only [hz, if_pos] at h
        exact absurd h (by simp)
      · simp only [if_neg hz] at h
        have hc : c = ⟨start, start + NTFSHandler.HEADER_LEN +
            NTFSHandler.total_sectors src start * NTFSHandler.bytes_per_sector src start⟩ := by
          have := h.symm
          simpa using this
        rw [hc]
        simp only
        omega
    · rw [if_neg hsz] at h
      exact absurd h (by simp)
  · intro h
    unfold UBIFSHandler.calculate_chunk at h
    by_cases hsz : start + UBIFSHandler.HEADER_LEN ≤ src.size
    · rw [if_pos hsz] at h
      have hc : c = ⟨start, start + UBIFSHandler.ubifs_length src start⟩ := by
        have := h.symm
        simpa using this
      rw [hc]
      simp only
      omega
    · rw [if_neg hsz] at h
      exact absurd h (by simp)
  · intro h
    unfold UBIHandler.calculate_chunk at h
    match hguess : UBIHandler._guess_peb_size src with
    | none =>
        rw [hguess] at h
        exact absurd h (by simp)
    | some peb_size =>
        rw [hguess] at h
        have hc : c = ⟨start, UBIHandler._walk_ubi src peb_size start⟩ := by
          have := h.symm
          simpa using this
        rw [hc]
        exact UBIHandler.walkGo_ge src peb_size (src.size + 1) start

/-- C1 (amended) witness: the zero-geometry UBIFS chunk `[0, 0)`
satisfies the amended inequality. -/
theorem c1_chunk_start_le_end_witness :
    UBIFSHandler.calculate_chunk
        ⟨4096, fun i => if i = 0 then 0x06 else if i = 1 then 0x10 else
          if i = 2 then 0x18 else if i = 3 then 0x31 else 0⟩ 0 = .chunk ⟨0, 0⟩ ∧
    (ValidChunk.mk 0 0).start_offset ≤ (ValidChunk.mk 0 0).end_offset :=
  ⟨by decide,
   (c1_chunk_start_le_end
      ⟨4096, fun i => if i = 0 then 0x06 else if i = 1 then 0x10 else
        if i = 2 then 0x18 else if i = 3 then 0x31 else 0⟩ 0 .headerFail
      ⟨0, 0⟩).2.2.2.1 (by decide)⟩

end Unblob
